import Mathlib

/-!
Shallow embedding of the turbo-tasks manager (`manager.rs`) and the slot
handle API (`vc.rs`), together with theorems checking the specification's
claims against it.  Concurrency is modelled sequentially: cache operations
are functions on explicit cache states, the scheduler counters form a step
machine over an explicit event trace, and the spawned jobs are modelled by
the ordered trace of observable actions they perform.
-/

namespace Turbo

instance {ε α : Type} [DecidableEq ε] [DecidableEq α] : DecidableEq (Except ε α) := by
  intro a b
  cases a <;> cases b
  case error.error e f =>
    exact if h : e = f then isTrue (by rw [h]) else
      isFalse (fun hh => h (by injection hh))
  case ok.ok x y =>
    exact if h : x = y then isTrue (by rw [h]) else
      isFalse (fun hh => h (by injection hh))
  case error.ok e x => exact isFalse (fun hh => Except.noConfusion hh)
  case ok.error x e => exact isFalse (fun hh => Except.noConfusion hh)

/-- A registered native function; identified by address in the source,
modelled by a stable id. -/
structure NativeFunction where
  id : Nat
deriving DecidableEq, Repr

/-- A trait type descriptor; identified by address in the source, modelled
by a stable id. -/
structure TraitType where
  id : Nat
deriving DecidableEq, Repr

/-- Modelled from the spec: `TaskInput` (task_input.rs is not under src/).
Variants per §3: `Resolved(handle to slot)`, `Unresolved(handle to task
output)`, `Value(inline bytes)`, `Nothing`.  Two inputs compare equal iff
their encodings are equal. -/
inductive TaskInput where
  | resolved (slot : Nat)
  | unresolved (taskOutput : Nat)
  | value (valueType : Nat) (bytes : List Nat)
  | nothing
deriving DecidableEq, Repr

/-- Modelled from the spec: `is_resolved` is true iff no `Unresolved`
handles appear (§4.2). -/
def TaskInput.is_resolved : TaskInput → Bool
  | .unresolved _ => false
  | _ => true

/-- Modelled from the spec: `is_nothing` (§4.2). -/
def TaskInput.is_nothing : TaskInput → Bool
  | .nothing => true
  | _ => false

/-- Task identity, per the constructors used by `manager.rs`
(`Task::new_native`, `Task::new_resolve_native`, `Task::new_resolve_trait`,
`Task::new_root`, `Task::new_once`). -/
inductive TaskKind where
  | native (func : NativeFunction) (inputs : List TaskInput)
  | resolveNative (func : NativeFunction) (inputs : List TaskInput)
  | resolveTrait (traitType : TraitType) (fnName : String) (inputs : List TaskInput)
  | root
  | once
deriving DecidableEq, Repr

/-- A task object.  `id` models the `Arc` allocation identity: two calls of
a `Task::new_*` constructor yield distinct objects, so each model
construction receives a fresh id from the caller. -/
structure Task where
  id : Nat
  kind : TaskKind
deriving DecidableEq, Repr

def Task.new_native (id : Nat) (inputs : List TaskInput) (func : NativeFunction) : Task :=
  ⟨id, .native func inputs⟩

def Task.new_resolve_native (id : Nat) (inputs : List TaskInput) (func : NativeFunction) : Task :=
  ⟨id, .resolveNative func inputs⟩

def Task.new_resolve_trait (id : Nat) (traitType : TraitType) (fnName : String)
    (inputs : List TaskInput) : Task :=
  ⟨id, .resolveTrait traitType fnName inputs⟩

/-- Modelled from the spec: a handle (§3) is either a task-output reference
or a direct slot reference (slot.rs is not under src/; `manager.rs` only
constructs the `TaskOutput` variant). -/
inductive SlotRef where
  | TaskOutput (task : Task)
  | SlotDirect (slot : Nat)
deriving DecidableEq, Repr

/-- First-match association lookup; models a `CHashMap` read probe. -/
def assocLookup {κ α : Type} [DecidableEq κ] : List (κ × α) → κ → Option α
  | [], _ => none
  | (k, v) :: rest, key => if key = k then some v else assocLookup rest key

/-- Number of entries under a given key. -/
def countKey {κ α : Type} [DecidableEq κ] (m : List (κ × α)) (key : κ) : Nat :=
  m.countP (fun p => decide (p.1 = key))

/-- `TurboTasks::cached_call`: optimistic read; on miss construct the new
task and run the key-locked `alter`, which hands back the existing entry if
one appeared or inserts the new task. -/
def cached_call {K : Type} [DecidableEq K] (map : List (K × Task)) (key : K)
    (create_new : Task) : SlotRef × List (K × Task) :=
  match assocLookup map key with
  | some cached =>
      -- fast pass without key lock (only read lock on table)
      (SlotRef.TaskOutput cached, map)
  | none =>
      -- slow pass with key lock
      let new_task := create_new
      match assocLookup map key with
      | some t => (SlotRef.TaskOutput t, map)
      | none => (SlotRef.TaskOutput new_task, (key, new_task) :: map)

theorem assocLookup_none_countKey {κ α : Type} [DecidableEq κ]
    (m : List (κ × α)) (k : κ) (h : assocLookup m k = none) : countKey m k = 0 := by
  induction m with
  | nil => rfl
  | cons p rest ih =>
      obtain ⟨k2, v⟩ := p
      by_cases hk : k = k2
      · simp [assocLookup, hk] at h
      · simp [assocLookup, hk] at h
        simp [countKey, List.countP_cons, hk, Ne.symm hk] at *
        simpa [countKey] using ih h

theorem cached_call_lookup {K : Type} [DecidableEq K] (m : List (K × Task)) (k : K)
    (t : Task) : ∃ t2, (cached_call m k t).1 = SlotRef.TaskOutput t2 ∧
      assocLookup (cached_call m k t).2 k = some t2 := by
  unfold cached_call
  cases h : assocLookup m k with
  | some cached => exact ⟨cached, rfl, h⟩
  | none => exact ⟨t, rfl, by simp [assocLookup]⟩

/-- C1: two invocations of `cached_call` with equal keys on the same table
return the same task: the second call finds the task the first call put (or
found) in the cache — via the optimistic read — instead of inserting the
task freshly constructed for it, and the table keeps at most one task under
the key. -/
theorem cached_call_memoizes {K : Type} [DecidableEq K] (m : List (K × Task))
    (k : K) (t1 t2 : Task) :
    (cached_call (cached_call m k t1).2 k t2).1 = (cached_call m k t1).1 ∧
    (cached_call (cached_call m k t1).2 k t2).2 = (cached_call m k t1).2 ∧
    (countKey m k ≤ 1 → countKey (cached_call m k t1).2 k ≤ 1) := by
  unfold cached_call
  cases h : assocLookup m k with
  | some cached => simp [h]
  | none =>
      have hcount : List.countP (fun p => decide (p.1 = k)) m = 0 := by
        simpa [countKey] using assocLookup_none_countKey m k h
      refine ⟨by simp [h, assocLookup], by simp [h, assocLookup], ?_⟩
      intro _
      simp [h, countKey, List.countP_cons, hcount]

theorem cached_call_memoizes_witness :
    countKey ((cached_call ([] : List (Nat × Task)) 0 (Task.new_native 1 [] ⟨0⟩)).2) 0 ≤ 1 :=
  (cached_call_memoizes ([] : List (Nat × Task)) 0 (Task.new_native 1 [] ⟨0⟩)
    (Task.new_native 2 [] ⟨0⟩)).2.2 (by decide)

/-- Error kinds of §7 that the manager surfaces.  In the source both are
programming errors: `UnresolvedInput` is a `debug_assert!` and
`MissingContext` an `unwrap` of an `anyhow` error; each aborts the process. -/
inductive TurboError where
  | UnresolvedInput
  | MissingContext
deriving DecidableEq, Repr

/-- The `TurboTasks` manager state: the three task caches plus the
scheduler counters.  `Instant` is modelled by a `Nat` timestamp,
`Duration` by a `Nat` difference; `event` is modelled by counting its
notifications. -/
structure TurboTasks where
  resolve_task_cache : List ((NativeFunction × List TaskInput) × Task)
  native_task_cache : List ((NativeFunction × List TaskInput) × Task)
  trait_task_cache : List ((TraitType × String × List TaskInput) × Task)
  currently_scheduled_tasks : Nat
  scheduled_tasks : Nat
  start : Option Nat
  last_update : Option (Nat × Nat)
  event_notifications : Nat
deriving DecidableEq, Repr

/-- `TurboTasks::new`. -/
def TurboTasks.new : TurboTasks :=
  { resolve_task_cache := []
    native_task_cache := []
    trait_task_cache := []
    currently_scheduled_tasks := 0
    scheduled_tasks := 0
    start := none
    last_update := none
    event_notifications := 0 }

/-- `TurboTasks::native_call`.  The `debug_assert!` that all inputs are
resolved and non-nothing is modelled as the abort it causes on violation;
`fresh` is the allocation id handed to `Task::new_native` should the slow
path construct a task. -/
def TurboTasks.native_call (tt : TurboTasks) (func : NativeFunction)
    (inputs : List TaskInput) (fresh : Nat) : Except TurboError (SlotRef × TurboTasks) :=
  if inputs.all (fun i => i.is_resolved && !i.is_nothing) then
    let r := cached_call tt.native_task_cache (func, inputs) (Task.new_native fresh inputs func)
    .ok (r.1, { tt with native_task_cache := r.2 })
  else
    .error .UnresolvedInput

/-- `TurboTasks::dynamic_call`: when every input is resolved and
non-nothing, delegate to `native_call`; otherwise serve from the resolve
task cache with a `Task::new_resolve_native` construction. -/
def TurboTasks.dynamic_call (tt : TurboTasks) (func : NativeFunction)
    (inputs : List TaskInput) (fresh : Nat) : Except TurboError (SlotRef × TurboTasks) :=
  if inputs.all (fun i => i.is_resolved && !i.is_nothing) then
    tt.native_call func inputs fresh
  else
    let r := cached_call tt.resolve_task_cache (func, inputs)
      (Task.new_resolve_native fresh inputs func)
    .ok (r.1, { tt with resolve_task_cache := r.2 })

/-- `TurboTasks::trait_call`: serve from the trait task cache with a
`Task::new_resolve_trait` construction. -/
def TurboTasks.trait_call (tt : TurboTasks) (trait_type : TraitType)
    (trait_fn_name : String) (inputs : List TaskInput) (fresh : Nat) :
    SlotRef × TurboTasks :=
  let r := cached_call tt.trait_task_cache (trait_type, trait_fn_name, inputs)
    (Task.new_resolve_trait fresh trait_type trait_fn_name inputs)
  (r.1, { tt with trait_task_cache := r.2 })

/-- `TurboTasks::current`: reads the ambient manager from the task-local
context, modelled as an explicit optional argument. -/
def TurboTasks.current (ctx : Option TurboTasks) : Option TurboTasks := ctx

/-- Free function `dynamic_call`: `TurboTasks::current().ok_or_else(...)
.unwrap()` then delegation; the unwrap of a missing context aborts, modelled
as `MissingContext`. -/
def dynamic_call (ctx : Option TurboTasks) (func : NativeFunction)
    (inputs : List TaskInput) (fresh : Nat) : Except TurboError (SlotRef × TurboTasks) :=
  match TurboTasks.current ctx with
  | none => .error .MissingContext
  | some tt => tt.dynamic_call func inputs fresh

/-- Free function `trait_call`: same context discipline as free
`dynamic_call`. -/
def trait_call (ctx : Option TurboTasks) (trait_type : TraitType)
    (trait_fn_name : String) (inputs : List TaskInput) (fresh : Nat) :
    Except TurboError (SlotRef × TurboTasks) :=
  match TurboTasks.current ctx with
  | none => .error .MissingContext
  | some tt => .ok (tt.trait_call trait_type trait_fn_name inputs fresh)

/-- C5: when every input is resolved and non-nothing, `native_call` returns
a `TaskOutput` handle to the task the native cache holds under the key
`(func, inputs)`; an unresolved or nothing input is the programming error
`UnresolvedInput` (an aborting `debug_assert!`), not a recoverable value. -/
theorem native_call_spec (tt : TurboTasks) (func : NativeFunction)
    (inputs : List TaskInput) (fresh : Nat) :
    (inputs.all (fun i => i.is_resolved && !i.is_nothing) = true →
      ∃ t cache2, tt.native_call func inputs fresh =
          .ok (SlotRef.TaskOutput t, { tt with native_task_cache := cache2 }) ∧
        assocLookup cache2 (func, inputs) = some t) ∧
    (inputs.all (fun i => i.is_resolved && !i.is_nothing) = false →
      tt.native_call func inputs fresh = .error TurboError.UnresolvedInput) := by
  constructor
  · intro h
    obtain ⟨t2, h1, h2⟩ := cached_call_lookup tt.native_task_cache (func, inputs)
      (Task.new_native fresh inputs func)
    refine ⟨t2, (cached_call tt.native_task_cache (func, inputs)
      (Task.new_native fresh inputs func)).2, ?_, h2⟩
    simp [TurboTasks.native_call, h, h1]
  · intro h
    simp [TurboTasks.native_call, h]

theorem native_call_spec_witness :
    (∃ t cache2, TurboTasks.new.native_call ⟨0⟩ [TaskInput.resolved 0] 1 =
        .ok (SlotRef.TaskOutput t, { TurboTasks.new with native_task_cache := cache2 }) ∧
      assocLookup cache2 (⟨0⟩, [TaskInput.resolved 0]) = some t) ∧
    TurboTasks.new.native_call ⟨0⟩ [TaskInput.unresolved 0] 1 =
      .error TurboError.UnresolvedInput :=
  ⟨(native_call_spec TurboTasks.new ⟨0⟩ [TaskInput.resolved 0] 1).1 (by decide),
   (native_call_spec TurboTasks.new ⟨0⟩ [TaskInput.unresolved 0] 1).2 (by decide)⟩

/-- C2 counterexample: the input list `[Nothing]` is entirely resolved
(`Nothing` contains no `Unresolved` handle), yet `dynamic_call` does not
delegate to `native_call`: it serves a resolve-then-call task from the
resolve task cache, because the code's condition also requires every input
to be non-nothing. -/
theorem dynamic_call_resolved_only_is_wrong :
    ([TaskInput.nothing].all TaskInput.is_resolved = true) ∧
    TurboTasks.new.dynamic_call ⟨0⟩ [TaskInput.nothing] 1 ≠
      TurboTasks.new.native_call ⟨0⟩ [TaskInput.nothing] 1 := by
  constructor
  · decide
  · intro h
    have : TurboTasks.new.native_call ⟨0⟩ [TaskInput.nothing] 1 =
        .error TurboError.UnresolvedInput := by decide
    rw [this] at h
    have : TurboTasks.new.dynamic_call ⟨0⟩ [TaskInput.nothing] 1 =
        .ok (SlotRef.TaskOutput (Task.new_resolve_native 1 [TaskInput.nothing] ⟨0⟩),
          { TurboTasks.new with
              resolve_task_cache := [((⟨0⟩, [TaskInput.nothing]),
                Task.new_resolve_native 1 [TaskInput.nothing] ⟨0⟩)] }) := by decide
    rw [this] at h
    exact Except.noConfusion h

/-- C2 amended: when every input is resolved AND none is nothing,
`dynamic_call` delegates to `native_call` (the native task cache);
otherwise it returns a handle to the resolve-then-call task held by the
resolve task cache under the key `(func, inputs)`. -/
theorem dynamic_call_spec (tt : TurboTasks) (func : NativeFunction)
    (inputs : List TaskInput) (fresh : Nat) :
    (inputs.all (fun i => i.is_resolved && !i.is_nothing) = true →
      tt.dynamic_call func inputs fresh = tt.native_call func inputs fresh) ∧
    (inputs.all (fun i => i.is_resolved && !i.is_nothing) = false →
      ∃ t cache2, tt.dynamic_call func inputs fresh =
          .ok (SlotRef.TaskOutput t, { tt with resolve_task_cache := cache2 }) ∧
        assocLookup cache2 (func, inputs) = some t) := by
  constructor
  · intro h
    simp [TurboTasks.dynamic_call, h]
  · intro h
    obtain ⟨t2, h1, h2⟩ := cached_call_lookup tt.resolve_task_cache (func, inputs)
      (Task.new_resolve_native fresh inputs func)
    refine ⟨t2, (cached_call tt.resolve_task_cache (func, inputs)
      (Task.new_resolve_native fresh inputs func)).2, ?_, h2⟩
    simp [TurboTasks.dynamic_call, h, h1]

theorem dynamic_call_spec_witness :
    TurboTasks.new.dynamic_call ⟨0⟩ [TaskInput.resolved 0] 1 =
        TurboTasks.new.native_call ⟨0⟩ [TaskInput.resolved 0] 1 ∧
    ∃ t cache2, TurboTasks.new.dynamic_call ⟨0⟩ [TaskInput.unresolved 0] 1 =
        .ok (SlotRef.TaskOutput t, { TurboTasks.new with resolve_task_cache := cache2 }) ∧
      assocLookup cache2 (⟨0⟩, [TaskInput.unresolved 0]) = some t :=
  ⟨(dynamic_call_spec TurboTasks.new ⟨0⟩ [TaskInput.resolved 0] 1).1 (by decide),
   (dynamic_call_spec TurboTasks.new ⟨0⟩ [TaskInput.unresolved 0] 1).2 (by decide)⟩

/-- C6: the free `dynamic_call` and `trait_call` raise `MissingContext`
(the process-aborting unwrap) when no ambient manager is installed in the
task-local context, and delegate to the installed manager's method with the
same arguments otherwise. -/
theorem free_calls_need_context (func : NativeFunction) (inputs : List TaskInput)
    (fresh : Nat) (trait_type : TraitType) (name : String) (tt : TurboTasks) :
    dynamic_call none func inputs fresh = .error TurboError.MissingContext ∧
    trait_call none trait_type name inputs fresh = .error TurboError.MissingContext ∧
    dynamic_call (some tt) func inputs fresh = tt.dynamic_call func inputs fresh ∧
    trait_call (some tt) trait_type name inputs fresh =
      .ok (tt.trait_call trait_type name inputs fresh) := by
  exact ⟨rfl, rfl, rfl, rfl⟩

/-- The scheduler counter events: `schedule` is the synchronous prefix of
`TurboTasks::schedule` (the `fetch_add` on `currently_scheduled_tasks`, the
timer start, and the `fetch_add` on `scheduled_tasks`), `finish` is the
epilogue of the spawned job (the `fetch_sub` and, on reaching zero, the
publication and event notification).  `now` is the wall clock at the
event. -/
inductive SchedEvent where
  | schedule (now : Nat)
  | finish (now : Nat)
deriving DecidableEq, Repr

def SchedEvent.isSchedule : SchedEvent → Bool
  | .schedule _ => true
  | .finish _ => false

def SchedEvent.isFinish : SchedEvent → Bool
  | .schedule _ => false
  | .finish _ => true

/-- One counter event applied to the manager state, mirroring the atomics
of `TurboTasks::schedule`: on `schedule`, a 0-to-1 `fetch_add` stores the
timer start and `scheduled_tasks` is bumped; on `finish`, a 1-to-0
`fetch_sub` loads `scheduled_tasks` as the total, resets it to zero,
publishes `(start.elapsed(), total)` into `last_update` when a start was
recorded, and notifies the quiescence event. -/
def schedStep (tt : TurboTasks) : SchedEvent → TurboTasks
  | .schedule now =>
      let prior := tt.currently_scheduled_tasks
      let tt1 := { tt with currently_scheduled_tasks := prior + 1 }
      let tt2 := if prior = 0 then { tt1 with start := some now } else tt1
      { tt2 with scheduled_tasks := tt2.scheduled_tasks + 1 }
  | .finish now =>
      let prior := tt.currently_scheduled_tasks
      let tt1 := { tt with currently_scheduled_tasks := prior - 1 }
      if prior = 1 then
        let total := tt1.scheduled_tasks
        let tt2 := { tt1 with scheduled_tasks := 0 }
        let tt3 :=
          match tt2.start with
          | some s => { tt2 with last_update := some (now - s, total) }
          | none => tt2
        { tt3 with event_notifications := tt3.event_notifications + 1 }
      else tt1

/-- A whole trace of counter events. -/
def runSched (tt : TurboTasks) (es : List SchedEvent) : TurboTasks :=
  es.foldl schedStep tt

/-- `TurboTasks::wait_done` returns the most recently published pair after
the quiescence event fires (the suspension itself is not modelled; the
returned value is). -/
def wait_done (tt : TurboTasks) : Option (Nat × Nat) := tt.last_update

def countSched (es : List SchedEvent) : Nat := es.countP SchedEvent.isSchedule

def countFin (es : List SchedEvent) : Nat := es.countP SchedEvent.isFinish

/-- C3: `wait_done` returns the most recently published pair; publication
and the event notification happen exactly on the 1-to-0 transition of
`currently_scheduled_tasks`, publishing `(now - start, scheduled_tasks)`
with the scheduled counter reset to zero; the timer starts on the 0-to-1
transition; `schedule` counts every scheduled task since the previous
publication. -/
theorem quiescence_protocol :
    (∀ tt e, (schedStep tt e).last_update ≠ tt.last_update →
      tt.currently_scheduled_tasks = 1 ∧ ∃ n, e = SchedEvent.finish n) ∧
    (∀ tt n s, tt.currently_scheduled_tasks = 1 → tt.start = some s →
      (schedStep tt (SchedEvent.finish n)).last_update = some (n - s, tt.scheduled_tasks) ∧
      (schedStep tt (SchedEvent.finish n)).scheduled_tasks = 0 ∧
      (schedStep tt (SchedEvent.finish n)).event_notifications =
        tt.event_notifications + 1) ∧
    (∀ tt n, tt.currently_scheduled_tasks = 0 →
      (schedStep tt (SchedEvent.schedule n)).start = some n) ∧
    (∀ tt n, tt.currently_scheduled_tasks ≠ 1 →
      (schedStep tt (SchedEvent.finish n)).last_update = tt.last_update ∧
      (schedStep tt (SchedEvent.finish n)).event_notifications = tt.event_notifications) ∧
    (∀ tt n, (schedStep tt (SchedEvent.schedule n)).scheduled_tasks =
      tt.scheduled_tasks + 1) ∧
    (∀ tt, wait_done tt = tt.last_update) := by
  refine ⟨?_, ?_, ?_, ?_, ?_, fun _ => rfl⟩
  · intro tt e h
    cases e with
    | schedule n =>
        exfalso
        apply h
        by_cases h0 : tt.currently_scheduled_tasks = 0 <;> simp [schedStep, h0]
    | finish n =>
        by_cases h1 : tt.currently_scheduled_tasks = 1
        · exact ⟨h1, n, rfl⟩
        · exfalso
          apply h
          simp [schedStep, h1]
  · intro tt n s h1 hs
    simp [schedStep, h1, hs]
  · intro tt n h0
    simp [schedStep, h0]
  · intro tt n h1
    simp [schedStep, h1]
  · intro tt n
    by_cases h0 : tt.currently_scheduled_tasks = 0 <;> simp [schedStep, h0]

/-- A sample manager state with one in-flight task, for the witness. -/
def sampleInFlight : TurboTasks :=
  { TurboTasks.new with
      currently_scheduled_tasks := 1
      scheduled_tasks := 4
      start := some 10 }

theorem quiescence_protocol_witness :
    (schedStep sampleInFlight (SchedEvent.finish 17)).last_update = some (7, 4) ∧
    (schedStep TurboTasks.new (SchedEvent.schedule 10)).start = some 10 :=
  ⟨(quiescence_protocol.2.1 sampleInFlight 17 10 (by decide) (by decide)).1,
   quiescence_protocol.2.2.1 TurboTasks.new 10 (by decide)⟩

/-- The observable actions of the job spawned by `TurboTasks::schedule`, in
program order:  the counter increment that precedes the spawn, the
`execution_started` check, the body (`task.execute(...).await` together
with `execution_result`), the drain of `TASKS_TO_NOTIFY`
(`dependent_slot_updated` per queued task), `execution_completed`, and the
counter decrement. -/
inductive JobAction where
  | increment
  | executionStart
  | bodyExec
  | executionResult
  | notifyDependent (task : Nat)
  | executionComplete
  | decrement
deriving DecidableEq, Repr

/-- The action trace of one `TurboTasks::schedule` call and its spawned
job: increment, then — only when `execution_started` returned true — the
body, the result store, the drain of the notification list accumulated by
the body, and `execution_completed`; the decrement runs in every case. -/
def scheduleJobTrace (started : Bool) (notifies : List Nat) : List JobAction :=
  [JobAction.increment] ++
  (if started then
    [JobAction.executionStart, JobAction.bodyExec, JobAction.executionResult] ++
      notifies.map JobAction.notifyDependent ++ [JobAction.executionComplete]
  else []) ++
  [JobAction.decrement]

theorem get?_append_skip {α : Type} (xs ys : List α) (k : Nat) :
    (xs ++ ys).get? (xs.length + k) = ys.get? k := by
  induction xs with
  | nil => simp
  | cons a l ih =>
      have harith : (a :: l).length + k = (l.length + k) + 1 := by
        simp [Nat.succ_add]
      rw [List.cons_append, harith]
      simpa [List.get?] using ih

/-- C4: in the scheduled job every queued dependent notification is
delivered strictly after the body's execution and strictly before
`execution_completed` — never during the body — and every queued task is
notified. -/
theorem notify_drained_after_body (notifies : List Nat) :
    ((scheduleJobTrace true notifies).get? 2 = some JobAction.bodyExec) ∧
    ((scheduleJobTrace true notifies).get? (4 + notifies.length) =
      some JobAction.executionComplete) ∧
    (∀ q i, (scheduleJobTrace true notifies).get? q =
        some (JobAction.notifyDependent i) → 2 < q ∧ q < 4 + notifies.length) ∧
    (∀ i ∈ notifies, JobAction.notifyDependent i ∈ scheduleJobTrace true notifies) := by
  have htrace : scheduleJobTrace true notifies =
      [JobAction.increment, JobAction.executionStart, JobAction.bodyExec,
        JobAction.executionResult] ++ (notifies.map JobAction.notifyDependent ++
      [JobAction.executionComplete, JobAction.decrement]) := by
    simp [scheduleJobTrace]
  have hlen : (notifies.map JobAction.notifyDependent).length = notifies.length := by
    simp
  refine ⟨?_, ?_, ?_, ?_⟩
  · rw [htrace]; rfl
  · rw [htrace]
    have h4 : (4 : Nat) + notifies.length =
        [JobAction.increment, JobAction.executionStart, JobAction.bodyExec,
          JobAction.executionResult].length + notifies.length := by simp
    rw [h4, get?_append_skip]
    have hn : notifies.length = (notifies.map JobAction.notifyDependent).length + 0 := by
      simp
    rw [hn, get?_append_skip]
    rfl
  · intro q i h
    rw [htrace] at h
    match q with
    | 0 => exact absurd h (by simp [List.get?])
    | 1 => exact absurd h (by simp [List.get?])
    | 2 => exact absurd h (by simp [List.get?])
    | 3 => exact absurd h (by simp [List.get?])
    | (q + 4) =>
        have h4 : q + 4 =
            [JobAction.increment, JobAction.executionStart, JobAction.bodyExec,
              JobAction.executionResult].length + q := by simp [Nat.add_comm]
        rw [h4, get?_append_skip] at h
        by_cases hq : q < notifies.length
        · exact ⟨by omega, by omega⟩
        · exfalso
          have hsplit : q = (notifies.map JobAction.notifyDependent).length +
              (q - notifies.length) := by
            rw [hlen]; omega
          rw [hsplit, get?_append_skip] at h
          match hr : q - notifies.length with
          | 0 => rw [hr] at h; exact absurd h (by simp [List.get?])
          | 1 => rw [hr] at h; exact absurd h (by simp [List.get?])
          | (r + 2) => rw [hr] at h; exact absurd h (by simp [List.get?])
  · intro i hi
    rw [htrace]
    refine List.mem_append_right _ (List.mem_append_left _ ?_)
    exact List.mem_map_of_mem JobAction.notifyDependent hi

theorem notify_drained_after_body_witness :
    2 < 4 ∧ 4 < 4 + [5].length :=
  (notify_drained_after_body [5]).2.2.1 4 5 (by decide)

theorem schedStep_schedule_counter (tt : TurboTasks) (n : Nat) :
    (schedStep tt (SchedEvent.schedule n)).currently_scheduled_tasks =
      tt.currently_scheduled_tasks + 1 := by
  by_cases h0 : tt.currently_scheduled_tasks = 0 <;> simp [schedStep, h0]

theorem schedStep_finish_counter (tt : TurboTasks) (n : Nat) :
    (schedStep tt (SchedEvent.finish n)).currently_scheduled_tasks =
      tt.currently_scheduled_tasks - 1 := by
  by_cases h1 : tt.currently_scheduled_tasks = 1 <;>
    cases hs : tt.start <;> simp [schedStep, h1, hs]

theorem count_notify_map_ne (notifies : List Nat) (a : JobAction)
    (h : ∀ i, a ≠ JobAction.notifyDependent i) :
    (notifies.map JobAction.notifyDependent).count a = 0 := by
  rw [List.count_eq_zero]
  intro hmem
  obtain ⟨i, -, hi⟩ := List.mem_map.mp hmem
  exact h i hi.symm

/-- C9: the synchronous prefix of `schedule` increments the in-flight
counter exactly once, before anything else, and the spawned job decrements
it exactly once, at its very end — also when `execution_started` returns
false and the body never runs; consequently over any event trace in which
no job finishes before it was scheduled, the counter equals the number of
scheduled jobs still in flight and never underflows. -/
theorem schedule_counter_invariant :
    (∀ (started : Bool) (notifies : List Nat),
      (scheduleJobTrace started notifies).head? = some JobAction.increment ∧
      (scheduleJobTrace started notifies).getLast? = some JobAction.decrement ∧
      (scheduleJobTrace started notifies).count JobAction.increment = 1 ∧
      (scheduleJobTrace started notifies).count JobAction.decrement = 1) ∧
    (∀ es : List SchedEvent,
      (∀ n, n ≤ es.length → countFin (es.take n) ≤ countSched (es.take n)) →
      (runSched TurboTasks.new es).currently_scheduled_tasks + countFin es =
        countSched es) := by
  constructor
  · intro started notifies
    cases started with
    | false =>
        refine ⟨rfl, rfl, ?_, ?_⟩ <;>
          · have : scheduleJobTrace false notifies =
                [JobAction.increment, JobAction.decrement] := rfl
            rw [this]
            decide
    | true =>
        have hinc := count_notify_map_ne notifies JobAction.increment (by intro i h; cases h)
        have hdec := count_notify_map_ne notifies JobAction.decrement (by intro i h; cases h)
        refine ⟨rfl, ?_, ?_, ?_⟩
        · have : scheduleJobTrace true notifies =
              ([JobAction.increment, JobAction.executionStart, JobAction.bodyExec,
                JobAction.executionResult] ++ notifies.map JobAction.notifyDependent ++
                [JobAction.executionComplete]) ++ [JobAction.decrement] := by
            simp [scheduleJobTrace]
          rw [this, List.getLast?_concat]
        · simp [scheduleJobTrace, List.count_append, List.count_cons, hinc]
        · simp [scheduleJobTrace, List.count_append, List.count_cons, hdec]
  · intro es h
    induction es using List.reverseRecOn with
    | nil => rfl
    | append_singleton es e ih =>
        have hes : ∀ n, n ≤ es.length → countFin (es.take n) ≤ countSched (es.take n) := by
          intro n hn
          have hfull := h n (by simp; omega)
          rwa [List.take_append_of_le_length hn] at hfull
        have hbal := ih hes
        have hstep : runSched TurboTasks.new (es ++ [e]) =
            schedStep (runSched TurboTasks.new es) e := by
          simp [runSched]
        cases e with
        | schedule n =>
            have hc := schedStep_schedule_counter (runSched TurboTasks.new es) n
            rw [hstep, hc]
            simp only [countFin, countSched, List.countP_append] at *
            simp [SchedEvent.isSchedule, SchedEvent.isFinish, List.countP_cons]
            omega
        | finish n =>
            have hge : countFin es + 1 ≤ countSched es := by
              have hfull := h (es.length + 1) (by simp)
              have htake : (es ++ [SchedEvent.finish n]).take (es.length + 1) =
                  es ++ [SchedEvent.finish n] := by
                apply List.take_of_length_le
                simp
              rw [htake] at hfull
              simp only [countFin, countSched, List.countP_append] at hfull
              simpa [SchedEvent.isSchedule, SchedEvent.isFinish, List.countP_cons,
                countFin, countSched] using hfull
            have hc := schedStep_finish_counter (runSched TurboTasks.new es) n
            rw [hstep, hc]
            simp only [countFin, countSched, List.countP_append] at *
            simp [SchedEvent.isSchedule, SchedEvent.isFinish, List.countP_cons]
            omega

theorem schedule_counter_invariant_witness :
    (runSched TurboTasks.new
        [SchedEvent.schedule 0, SchedEvent.schedule 2, SchedEvent.finish 3]
      ).currently_scheduled_tasks +
      countFin [SchedEvent.schedule 0, SchedEvent.schedule 2, SchedEvent.finish 3] =
      countSched [SchedEvent.schedule 0, SchedEvent.schedule 2, SchedEvent.finish 3] :=
  schedule_counter_invariant.2
    [SchedEvent.schedule 0, SchedEvent.schedule 2, SchedEvent.finish 3] (by decide)

/-- The background jobs the manager schedules: deactivation, removal, or a
generic payload. -/
inductive BgKind where
  | deactivate
  | remove
  | generic
deriving DecidableEq, Repr

/-- Observable actions of a job spawned by
`TurboTasks::schedule_background_job`: loads of
`currently_scheduled_tasks`, creating the event listener, awaiting it, and
finally awaiting the payload future. -/
inductive BgAction where
  | observe (counter : Nat)
  | listen
  | awaitEvent
  | payload (kind : BgKind)
deriving DecidableEq, Repr

/-- `TurboTasks::schedule_background_job`: the spawned future loads the
in-flight counter; when nonzero it creates a listener, re-loads the
counter, and awaits the listener when the re-load is still nonzero; only
then is the payload future awaited.  `o1` and `o2` are the two observed
counter values. -/
def schedule_background_job (kind : BgKind) (o1 o2 : Nat) : List BgAction :=
  [BgAction.observe o1] ++
  (if o1 ≠ 0 then
    [BgAction.listen, BgAction.observe o2] ++ (if o2 ≠ 0 then [BgAction.awaitEvent] else [])
  else []) ++
  [BgAction.payload kind]

/-- `TurboTasks::schedule_deactivate_tasks` defers `Task::deactivate_tasks`
through a background job. -/
def schedule_deactivate_tasks (o1 o2 : Nat) : List BgAction :=
  schedule_background_job BgKind.deactivate o1 o2

/-- `TurboTasks::schedule_remove_tasks` defers `Task::remove_tasks` through
a background job. -/
def schedule_remove_tasks (o1 o2 : Nat) : List BgAction :=
  schedule_background_job BgKind.remove o1 o2

/-- C7: every background job — deactivation and removal included — runs its
payload last and only after either observing the in-flight counter equal to
zero or waiting on the quiescence event following a nonzero observation. -/
theorem background_job_defers (kind : BgKind) (o1 o2 : Nat) :
    (schedule_background_job kind o1 o2).getLast? = some (BgAction.payload kind) ∧
    (schedule_background_job kind o1 o2).count (BgAction.payload kind) = 1 ∧
    (BgAction.observe 0 ∈ schedule_background_job kind o1 o2 ∨
      BgAction.awaitEvent ∈ schedule_background_job kind o1 o2) ∧
    schedule_deactivate_tasks o1 o2 = schedule_background_job BgKind.deactivate o1 o2 ∧
    schedule_remove_tasks o1 o2 = schedule_background_job BgKind.remove o1 o2 := by
  refine ⟨?_, ?_, ?_, rfl, rfl⟩
  · by_cases h1 : o1 = 0 <;> by_cases h2 : o2 = 0 <;>
      simp [schedule_background_job, h1, h2]
  · by_cases h1 : o1 = 0 <;> by_cases h2 : o2 = 0 <;>
      simp [schedule_background_job, h1, h2, List.count_append, List.count_cons]
  · by_cases h1 : o1 = 0
    · subst h1
      left
      simp [schedule_background_job]
    · by_cases h2 : o2 = 0
      · subst h2
        left
        simp [schedule_background_job, h1]
      · right
        simp [schedule_background_job, h1, h2]

/-- `TurboTasks::schedule_notify_tasks`: swap the task-local
`TASKS_TO_NOTIFY` cell out into a temporary, push every task produced by
the iterator, and swap the temporary back into the cell. -/
def schedule_notify_tasks (cell : List Task) (tasks_iter : List Task) : List Task :=
  let temp : List Task := []
  let (cellEmptied, temp) := (temp, cell)
  let temp := tasks_iter.foldl (fun acc task => acc.concat task) temp
  let (cellRefilled, _temp) := (temp, cellEmptied)
  cellRefilled

theorem foldl_concat_eq_append (tasks_iter acc : List Task) :
    tasks_iter.foldl (fun a task => a.concat task) acc = acc ++ tasks_iter := by
  induction tasks_iter generalizing acc with
  | nil => simp
  | cons t rest ih =>
      have hstep : List.foldl (fun a task => a.concat task) acc (t :: rest) =
          List.foldl (fun a task => a.concat task) (acc.concat t) rest := rfl
      rw [hstep, ih]
      simp

/-- C10: `schedule_notify_tasks` only appends — the accumulator afterwards
is exactly its previous contents, in order, followed by the iterator's
tasks in iteration order. -/
theorem schedule_notify_tasks_appends (cell tasks_iter : List Task) :
    schedule_notify_tasks cell tasks_iter = cell ++ tasks_iter := by
  show tasks_iter.foldl (fun acc task => acc.concat task) cell = cell ++ tasks_iter
  exact foldl_concat_eq_append tasks_iter cell

/-- Slot contents are opaque to the runtime and compared by the value
type's equality; modelled as naturals with decidable equality. -/
abbrev Value := Nat

/-- Modelled from the spec: a slot (§3) holds at most one current value and
the set of dependent tasks; slot.rs is not under src/. -/
structure Slot where
  content : Option Value
  dependents : List Task
deriving DecidableEq, Repr

/-- Modelled from the spec: `compare_and_update_shared` (§4.3) — if the new
value equals the current value the write is a no-op and nobody is notified;
otherwise the value replaces the old one and every dependent is handed back
for notification.  Slot.rs is not under src/.  The value type argument
carries the equality used; values here compare by their own equality. -/
def Slot.compare_and_update_shared (s : Slot) (_valueTypeId : Nat) (new : Value) :
    Slot × List Task :=
  match s.content with
  | some old =>
      if old = new then (s, [])
      else ({ s with content := some new }, s.dependents)
  | none => ({ s with content := some new }, s.dependents)

/-- Replace the binding of a key, or append it when absent. -/
def assocSet {κ α : Type} [DecidableEq κ] : List (κ × α) → κ → α → List (κ × α)
  | [], key, v => [(key, v)]
  | (k, w) :: rest, key, v =>
      if key = k then (key, v) :: rest else (k, w) :: assocSet rest key v

theorem assocLookup_assocSet_self {κ α : Type} [DecidableEq κ] (m : List (κ × α))
    (k : κ) (v : α) : assocLookup (assocSet m k v) k = some v := by
  induction m with
  | nil => simp [assocSet, assocLookup]
  | cons p rest ih =>
      obtain ⟨k2, w⟩ := p
      by_cases hk : k = k2 <;> simp [assocSet, assocLookup, hk, ih]

/-- Modelled from the spec: the per-execution slot-selection state of the
current task (task.rs is not under src/).  `prevByType` lists, per value
type, the slots of that type from the previous execution in creation
order; `indexByType` counts the `slot` calls per value type made so far in
the current execution; `prevByKey` maps keys to keyed slots; `usedKeys`
records the keys already used this execution; `slots` is the slot store
and `tasksToNotify` the task-local `TASKS_TO_NOTIFY` accumulator. -/
structure ExecState where
  prevByType : List (Nat × List Nat)
  indexByType : List (Nat × Nat)
  prevByKey : List (Value × Nat)
  usedKeys : List Value
  slots : List (Nat × Slot)
  nextSlotId : Nat
  tasksToNotify : List Task
deriving DecidableEq, Repr

/-- Run a slot mutation against the store and route the tasks it hands
back into the task-local accumulator via `schedule_notify_tasks`. -/
def applySlot (st : ExecState) (slotId : Nat) (f : Slot → Slot × List Task) : ExecState :=
  let s := (assocLookup st.slots slotId).getD ⟨none, []⟩
  let r := f s
  { st with
      slots := assocSet st.slots slotId r.1
      tasksToNotify := schedule_notify_tasks st.tasksToNotify r.2 }

/-- Modelled from the spec: `match_previous_node_by_type` (task.rs is not
under src/) — the N-th `slot` call for a value type during an execution
selects the N-th slot of that type from the previous execution, creating a
fresh slot when none exists, and applies the given write to it (§6,
§4.4). -/
def match_previous_node_by_type (st : ExecState) (ty : Nat)
    (f : Slot → Slot × List Task) : Nat × ExecState :=
  let n := (assocLookup st.indexByType ty).getD 0
  let st1 := { st with indexByType := assocSet st.indexByType ty (n + 1) }
  let prevList := (assocLookup st1.prevByType ty).getD []
  match prevList.get? n with
  | some slotId => (slotId, applySlot st1 slotId f)
  | none =>
      let id := st1.nextSlotId
      let st2 := { st1 with
        nextSlotId := id + 1
        prevByType := assocSet st1.prevByType ty (prevList.concat id)
        slots := (id, ⟨none, []⟩) :: st1.slots }
      (id, applySlot st2 id f)

/-- Modelled from the spec: `match_previous_node_by_key` (task.rs is not
under src/) — selects the slot uniquely identified by the key, creating a
fresh slot on first use of the key; the key must not be used twice during
one execution (§6). -/
def match_previous_node_by_key (st : ExecState) (key : Value)
    (f : Slot → Slot × List Task) : Nat × ExecState :=
  let st1 := { st with usedKeys := st.usedKeys.concat key }
  match assocLookup st1.prevByKey key with
  | some slotId => (slotId, applySlot st1 slotId f)
  | none =>
      let id := st1.nextSlotId
      let st2 := { st1 with
        nextSlotId := id + 1
        prevByKey := assocSet st1.prevByKey key id
        slots := (id, ⟨none, []⟩) :: st1.slots }
      (id, applySlot st2 id f)

/-- `Vc::slot`: select the slot by value type and call order, then
compare-and-update it with the content. -/
def Vc.slot (st : ExecState) (ty : Nat) (content : Value) : Nat × ExecState :=
  match_previous_node_by_type st ty
    (fun s => s.compare_and_update_shared ty content)

/-- `Vc::keyed_slot`: select the slot by key, then compare-and-update it
with the content. -/
def Vc.keyed_slot (st : ExecState) (ty : Nat) (key : Value) (content : Value) :
    Nat × ExecState :=
  match_previous_node_by_key st key
    (fun s => s.compare_and_update_shared ty content)

/-- C8: within one execution `Vc::slot` deterministically selects, for the
N-th call on a value type, the N-th slot of that type from the previous
execution and bumps the per-type call counter; `Vc::keyed_slot` — under the
precondition that the key was not used before in this execution — selects
the slot identified by the key; and in both cases the write is a
compare-and-update: an equal value leaves the slot untouched and notifies
nobody, a different value replaces the content and hands the dependents to
the notification accumulator. -/
theorem slot_selection_and_update :
    (∀ st ty content n prevList slotId s,
      assocLookup st.indexByType ty = some n →
      assocLookup st.prevByType ty = some prevList →
      prevList.get? n = some slotId →
      assocLookup st.slots slotId = some s →
      (Vc.slot st ty content).1 = slotId ∧
      assocLookup (Vc.slot st ty content).2.indexByType ty = some (n + 1) ∧
      assocLookup (Vc.slot st ty content).2.slots slotId =
        some (s.compare_and_update_shared ty content).1 ∧
      (Vc.slot st ty content).2.tasksToNotify =
        st.tasksToNotify ++ (s.compare_and_update_shared ty content).2) ∧
    (∀ st ty key content slotId s,
      key ∉ st.usedKeys →
      assocLookup st.prevByKey key = some slotId →
      assocLookup st.slots slotId = some s →
      (Vc.keyed_slot st ty key content).1 = slotId ∧
      assocLookup (Vc.keyed_slot st ty key content).2.slots slotId =
        some (s.compare_and_update_shared ty content).1 ∧
      (Vc.keyed_slot st ty key content).2.tasksToNotify =
        st.tasksToNotify ++ (s.compare_and_update_shared ty content).2) ∧
    (∀ (s : Slot) (ty : Nat) (v : Value),
      s.content = some v → s.compare_and_update_shared ty v = (s, [])) ∧
    (∀ (s : Slot) (ty : Nat) (v : Value), s.content ≠ some v →
      (s.compare_and_update_shared ty v).1 = { s with content := some v } ∧
      (s.compare_and_update_shared ty v).2 = s.dependents) := by
  have happend : ∀ (cell r : List Task), schedule_notify_tasks cell r = cell ++ r := by
    intro cell r
    show r.foldl (fun acc task => acc.concat task) cell = cell ++ r
    exact foldl_concat_eq_append r cell
  refine ⟨?_, ?_, ?_, ?_⟩
  · intro st ty content n prevList slotId s h1 h2 h3 h4
    have h3g : prevList[n]? = some slotId := by
      rw [← List.get?_eq_getElem?]
      exact h3
    refine ⟨?_, ?_, ?_, ?_⟩ <;>
      simp [Vc.slot, match_previous_node_by_type, applySlot, h1, h2, h3g, h4,
        assocLookup_assocSet_self, happend]
  · intro st ty key content slotId s hku h2 h4
    refine ⟨?_, ?_, ?_⟩ <;>
      simp [Vc.keyed_slot, match_previous_node_by_key, applySlot, h2, h4,
        assocLookup_assocSet_self, happend]
  · intro s ty v h
    simp [Slot.compare_and_update_shared, h]
  · intro s ty v h
    cases hc : s.content with
    | none => simp [Slot.compare_and_update_shared, hc]
    | some old =>
        have hne : old ≠ v := by
          intro he
          exact h (by rw [hc, he])
        simp [Slot.compare_and_update_shared, hc, hne]

/-- A sample execution state for the witness: value type 3 had slots 7 and 8
in the previous execution, one `slot` call was already made, and key 5 maps
to slot 9. -/
def sampleExec : ExecState :=
  { prevByType := [(3, [7, 8])]
    indexByType := [(3, 1)]
    prevByKey := [(5, 9)]
    usedKeys := []
    slots := [(7, ⟨some 0, []⟩), (8, ⟨some 1, [⟨0, TaskKind.root⟩]⟩), (9, ⟨none, []⟩)]
    nextSlotId := 10
    tasksToNotify := [] }

theorem slot_selection_and_update_witness :
    ((Vc.slot sampleExec 3 2).1 = 8 ∧
      assocLookup (Vc.slot sampleExec 3 2).2.indexByType 3 = some 2 ∧
      assocLookup (Vc.slot sampleExec 3 2).2.slots 8 =
        some ((Slot.mk (some 1) [⟨0, TaskKind.root⟩]).compare_and_update_shared 3 2).1 ∧
      (Vc.slot sampleExec 3 2).2.tasksToNotify =
        sampleExec.tasksToNotify ++
          ((Slot.mk (some 1) [⟨0, TaskKind.root⟩]).compare_and_update_shared 3 2).2) ∧
    (Vc.keyed_slot sampleExec 3 5 4).1 = 9 ∧
    (Slot.mk (some 6) []).compare_and_update_shared 3 6 = (Slot.mk (some 6) [], []) :=
  ⟨slot_selection_and_update.1 sampleExec 3 2 1 [7, 8] 8 (Slot.mk (some 1) [⟨0, TaskKind.root⟩])
      (by decide) (by decide) (by decide) (by decide),
   (slot_selection_and_update.2.1 sampleExec 3 5 4 9 (Slot.mk none [])
      (by decide) (by decide) (by decide)).1,
   slot_selection_and_update.2.2.1 (Slot.mk (some 6) []) 3 6 (by decide)⟩

end Turbo
